import Mathlib

/-!
Shallow embedding of the `martingale-sim` repository (src/src/models.py,
src/src/strategies.py, src/src/games.py).

Modelling conventions:
- Python floats are modelled as rationals (ℚ); the arithmetic performed by the
  program (addition, multiplication, max, subtraction, division) is exact on the
  inputs considered, so ℚ is a faithful carrier for the algebraic claims.
- A pandas IEEE NaN result is modelled as `none` in `Option ℚ` (only
  `History.variance_gain` can produce one).
- `History.records` (a pandas DataFrame with columns outcome, bet, total_gain)
  is modelled as a `List Record` in insertion order.
- The abstract `Strategy.decide_bet` / `Game.play_round` contracts are modelled
  as explicit state-passing functions `σ → History → ℚ × σ` and
  `γ → History → ℚ × γ` (Python objects mutate `self`; here the state is passed
  and returned).
- `Simulation.run`'s `raise ValueError` is modelled with `Except SimError`; an
  uncaught exception means the caller receives no results mapping, hence
  `Except.error` carries no partial results, matching Python.  The
  `TypeError` path for non-numeric bets and the `None → 0.0` coercion are not
  representable once bets are typed as ℚ and are not needed by any claim here.
- `stop_condition=None` is modelled by the constantly-false predicate, which is
  how `if stop_condition and stop_condition(history)` behaves.
-/

/-- One row of the `History.records` DataFrame: columns `outcome`, `bet`,
`total_gain` (models.py, `History.add_record`). -/
structure Record where
  outcome : ℚ
  bet : ℚ
  total_gain : ℚ
  deriving Repr, DecidableEq

/-- `History` (models.py): wraps the ordered record table. -/
structure History where
  records : List Record
  deriving Repr, DecidableEq

namespace History

/-- `History.add_record`: appends one row to the table. -/
def add_record (h : History) (outcome bet total_gain : ℚ) : History :=
  ⟨h.records ++ [⟨outcome, bet, total_gain⟩]⟩

/-- `History.last_record`: the last row, or the empty marker (`pd.Series()`,
modelled as `none`) when the table is empty. -/
def last_record (h : History) : Option Record :=
  h.records.getLast?

/-- `History.is_empty`. -/
def is_empty (h : History) : Bool :=
  h.records.isEmpty

/-- `History.get_capital`: the `total_gain` column in insertion order. -/
def get_capital (h : History) : List ℚ :=
  h.records.map Record.total_gain

/-- `History.get_bets`: the `bet` column in insertion order. -/
def get_bets (h : History) : List ℚ :=
  h.records.map Record.bet

/-- `History.get_outcomes`: the `outcome` column in insertion order. -/
def get_outcomes (h : History) : List ℚ :=
  h.records.map Record.outcome

/-- `History.length`. -/
def length (h : History) : Nat :=
  h.records.length

/-- `History.get_records`. -/
def get_records (h : History) : List Record :=
  h.records

end History

/-- pandas `Series.cummax` on a column, auxiliary accumulator form:
`cummaxAux m l` is the running maximum of `l` seeded with `m`. -/
def cummaxAux : ℚ → List ℚ → List ℚ
  | _, [] => []
  | m, x :: xs => max m x :: cummaxAux (max m x) xs

/-- pandas `Series.cummax`: element `i` is the maximum of elements `0..i`. -/
def cummax : List ℚ → List ℚ
  | [] => []
  | x :: xs => x :: cummaxAux x xs

/-- pandas `Series.max()` of a column; the program only calls it on nonempty
columns, the `[]` case is an unused default. -/
def seriesMax : List ℚ → ℚ
  | [] => 0
  | x :: xs => xs.foldl max x

/-- pandas `Series.min()` of a column; the `[]` case is an unused default. -/
def seriesMin : List ℚ → ℚ
  | [] => 0
  | x :: xs => xs.foldl min x

/-- pandas `Series.mean()` of a column. -/
def seriesMean (l : List ℚ) : ℚ :=
  l.sum / l.length

/-- pandas `Series.var()` with the default `ddof=1`: the sample variance with
denominator `n - 1`.  For fewer than two elements pandas returns IEEE NaN,
modelled as `none`. -/
def pandasVar (l : List ℚ) : Option ℚ :=
  if l.length ≤ 1 then none
  else some ((l.map (fun x => (x - seriesMean l) ^ 2)).sum / ((l.length : ℚ) - 1))

namespace History

/-- `History.expected_value`: mean of the outcome column, `0.0` when empty. -/
def expected_value (h : History) : ℚ :=
  if h.records.isEmpty then 0
  else seriesMean (h.records.map Record.outcome)

/-- `History.max_drawdown` (models.py lines 67-73): on a nonempty table,
`cummax(total_gain) - total_gain`, maximized; `0.0` when empty. -/
def max_drawdown (h : History) : ℚ :=
  if h.records.isEmpty then 0
  else
    let gains := h.records.map Record.total_gain
    seriesMax (List.zipWith (fun a b => a - b) (cummax gains) gains)

/-- `History.variance_gain` (models.py lines 77-81): sample variance of the
`total_gain` column when the table is nonempty (NaN, i.e. `none`, for a single
row), and the hard-coded `0.0` when empty. -/
def variance_gain (h : History) : Option ℚ :=
  if h.records.isEmpty then some 0
  else pandasVar (h.records.map Record.total_gain)

end History

/-- `Result` (models.py): snapshot of a finished history plus the two fields
computed in `__init__`. -/
structure Result where
  history : List Record
  total_rounds : Nat
  final_gain : ℚ
  deriving Repr, DecidableEq

/-- `Result.__init__(history)` (models.py lines 86-89): stores the record
table, `total_rounds = len(history)`, and `final_gain` = last row's
`total_gain` when `total_rounds > 0`, else `0.0`. -/
def Result.ofHistory (records : List Record) : Result :=
  ⟨records, records.length,
    match records.getLast? with
    | some r => r.total_gain
    | none => 0⟩

/-- The dictionary returned by `Result.compute_statistics`. -/
structure Stats where
  total_rounds : Nat
  final_gain : ℚ
  average_bet : ℚ
  max_bet : ℚ
  min_bet : ℚ
  max_drawdown : ℚ
  deriving Repr, DecidableEq

/-- `Result.compute_statistics` (models.py lines 90-99). -/
def Result.compute_statistics (r : Result) : Stats :=
  ⟨r.total_rounds,
    r.final_gain,
    if r.total_rounds > 0 then seriesMean (r.history.map Record.bet) else 0,
    if r.total_rounds > 0 then seriesMax (r.history.map Record.bet) else 0,
    if r.total_rounds > 0 then seriesMin (r.history.map Record.bet) else 0,
    if r.total_rounds > 0 then
      seriesMax (List.zipWith (fun a b => a - b)
        (cummax (r.history.map Record.total_gain))
        (r.history.map Record.total_gain))
    else 0⟩

/-- The one exception `Simulation.run` raises on a validated bet: the
`ValueError` for a negative bet (models.py lines 131-132). -/
inductive SimError where
  | valueError : SimError
  deriving Repr, DecidableEq

/-- `Simulation` (models.py): strategies (name, initial state, `decide_bet`),
the shared game state and its `play_round`, `max_bet`, `start_value`. -/
structure Simulation (σ γ : Type) where
  strategies : List (String × σ × (σ → History → ℚ × σ))
  game : γ
  play_round : γ → History → ℚ × γ
  max_bet : ℚ
  start_value : ℚ

/-- The inner per-strategy round loop of `Simulation.run` (models.py lines
120-143), with the round counter as fuel: decide a bet, raise on a negative
bet, clip to `max_bet`, play a round, update the gain, append a record, then
check the stop condition. -/
def runLoop {σ γ : Type} (max_bet : ℚ) (decide_bet : σ → History → ℚ × σ)
    (play : γ → History → ℚ × γ) (stop : History → Bool) :
    Nat → σ → γ → History → ℚ → Except SimError (History × γ)
  | 0, _, g, h, _ => Except.ok (h, g)
  | n + 1, s, g, h, gain =>
    let bs := decide_bet s h
    if bs.1 < 0 then Except.error SimError.valueError
    else
      let bet := if bs.1 > max_bet then max_bet else bs.1
      let og := play g h
      let gain2 := gain + bet * og.1
      let h2 := h.add_record og.1 bet gain2
      if stop h2 then Except.ok (h2, og.2)
      else runLoop max_bet decide_bet play stop n bs.2 og.2 h2 gain2

/-- The outer strategy loop of `Simulation.run`: each strategy gets a fresh
empty history and `gain = start_value`; the game state threads across
strategies; an exception aborts the whole run (the caller gets no mapping). -/
def runStrategies {σ γ : Type} (max_bet start_value : ℚ)
    (play : γ → History → ℚ × γ) (stop : History → Bool) (rounds : Nat) :
    List (String × σ × (σ → History → ℚ × σ)) → γ →
    Except SimError (List (String × Result))
  | [], _ => Except.ok []
  | (name, s0, decide_bet) :: rest, g =>
    match runLoop max_bet decide_bet play stop rounds s0 g ⟨[]⟩ start_value with
    | Except.error e => Except.error e
    | Except.ok (h, g2) =>
      match runStrategies max_bet start_value play stop rounds rest g2 with
      | Except.error e => Except.error e
      | Except.ok results => Except.ok ((name, Result.ofHistory h.records) :: results)

/-- `Simulation.run(rounds, stop_condition)` (models.py lines 112-147),
returning the name → `Result` association in strategy order. -/
def Simulation.run {σ γ : Type} (sim : Simulation σ γ) (rounds : Nat)
    (stop : History → Bool) : Except SimError (List (String × Result)) :=
  runStrategies sim.max_bet sim.start_value sim.play_round stop rounds
    sim.strategies sim.game

/-- `FixedBettingStrategy.decide_bet` (strategies.py): always returns
`bet_amount`; no mutable state. -/
def FixedBettingStrategy.decide_bet (bet_amount : ℚ) :
    Unit → History → ℚ × Unit :=
  fun _ _ => (bet_amount, ())

/-- `DoubleOnLossStrategy.decide_bet` (strategies.py lines 17-24): if the
history is nonempty and the last outcome is `-1`, double `current_bet`
(the state); otherwise reset it to `base_bet`; return the updated value. -/
def DoubleOnLossStrategy.decide_bet (base_bet : ℚ) :
    ℚ → History → ℚ × ℚ :=
  fun current_bet h =>
    let nb :=
      match h.last_record with
      | some r => if r.outcome = -1 then current_bet * 2 else base_bet
      | none => base_bet
    (nb, nb)

/-- Modelled from the spec: the deterministic test game of §8 ("a game that
returns the fixed outcome sequence on demand").  It is not under src/ (the
games in src/src/games.py draw from a random number generator); its state is
the list of outcomes still to be served.  An exhausted script serves `0`,
which no claim exercises. -/
def ScriptedGame.play_round : List ℚ → History → ℚ × List ℚ
  | [], _ => (0, [])
  | o :: rest, _ => (o, rest)

/-- The per-round profit sum `Σ bet_k * outcome_k` over a record list. -/
def betTimesOutcomeSum (l : List Record) : ℚ :=
  (l.map (fun r => r.bet * r.outcome)).sum

/-- The gain bookkeeping invariant of a record list: row `i`'s `total_gain`
is `start` plus the profit sum of rows `0..i`. -/
def gainInvariant (start : ℚ) (l : List Record) : Prop :=
  ∀ i (hi : i < l.length),
    (l.get ⟨i, hi⟩).total_gain = start + betTimesOutcomeSum (l.take (i + 1))

/-- All bets of a record list lie in the closed interval `[0, max_bet]`. -/
def betsInRange (max_bet : ℚ) (l : List Record) : Prop :=
  ∀ r ∈ l, 0 ≤ r.bet ∧ r.bet ≤ max_bet

instance (max_bet : ℚ) (l : List Record) : Decidable (betsInRange max_bet l) :=
  inferInstanceAs (Decidable (∀ r ∈ l, _ ∧ _))

/-- The maximum-drawdown formula as the spec states it, for the refinement
claim: the maximum over positions i of (the maximum over j ≤ i of
total_gain j) minus total_gain i, and 0.0 on an empty history.  This
definition follows the wording of the spec; the claim compares it with
`History.max_drawdown`, which follows the source. -/
def max_drawdown_spec (h : History) : ℚ :=
  let gains := h.records.map Record.total_gain
  if gains.isEmpty then 0
  else seriesMax ((List.range gains.length).map
    (fun i => seriesMax (gains.take (i + 1)) - gains.getD i 0))
lemma foldl_max_init_le (l : List ℚ) : ∀ b : ℚ, b ≤ l.foldl max b := by
  induction l with
  | nil => intro b; simp
  | cons x xs ih =>
    intro b
    exact le_trans (le_max_left b x) (ih (max b x))

lemma le_foldl_max_of_mem {l : List ℚ} {x : ℚ} (hx : x ∈ l) :
    ∀ b : ℚ, x ≤ l.foldl max b := by
  induction l with
  | nil => cases hx
  | cons y ys ih =>
    intro b
    rcases List.mem_cons.mp hx with h | h
    · subst h
      exact le_trans (le_max_right b x) (foldl_max_init_le ys (max b x))
    · exact ih h (max b y)

lemma foldl_max_le {l : List ℚ} {c : ℚ} (hc : ∀ x ∈ l, x ≤ c) :
    ∀ b : ℚ, b ≤ c → l.foldl max b ≤ c := by
  induction l with
  | nil => intro b hb; simpa using hb
  | cons y ys ih =>
    intro b hb
    exact ih (fun x hx => hc x (List.mem_cons_of_mem y hx))
      (max b y) (max_le hb (hc y (List.mem_cons_self y ys)))

lemma foldl_max_comm_init (l : List ℚ) :
    ∀ a b : ℚ, l.foldl max (max a b) = max a (l.foldl max b) := by
  induction l with
  | nil => intro a b; simp
  | cons x xs ih =>
    intro a b
    simp only [List.foldl_cons]
    rw [max_assoc, ih]

lemma le_seriesMax_of_mem {l : List ℚ} {x : ℚ} (hx : x ∈ l) : x ≤ seriesMax l := by
  cases l with
  | nil => cases hx
  | cons y ys =>
    rcases List.mem_cons.mp hx with h | h
    · subst h; exact foldl_max_init_le ys x
    · exact le_foldl_max_of_mem h y

lemma seriesMax_le {l : List ℚ} (hne : l ≠ []) {c : ℚ} (hc : ∀ x ∈ l, x ≤ c) :
    seriesMax l ≤ c := by
  cases l with
  | nil => exact absurd rfl hne
  | cons y ys =>
    exact foldl_max_le (fun x hx => hc x (List.mem_cons_of_mem y hx)) y
      (hc y (List.mem_cons_self y ys))

lemma seriesMax_cons {t : List ℚ} (ht : t ≠ []) (x : ℚ) :
    seriesMax (x :: t) = max x (seriesMax t) := by
  cases t with
  | nil => exact absurd rfl ht
  | cons y ys =>
    show (y :: ys).foldl max x = max x (seriesMax (y :: ys))
    simp only [List.foldl_cons]
    exact foldl_max_comm_init ys x y

lemma cummaxAux_length (m : ℚ) (l : List ℚ) : (cummaxAux m l).length = l.length := by
  induction l generalizing m with
  | nil => rfl
  | cons x xs ih => simp [cummaxAux, ih]

lemma cummax_length (l : List ℚ) : (cummax l).length = l.length := by
  cases l with
  | nil => rfl
  | cons x xs => simp [cummax, cummaxAux_length]

lemma take_ne_nil_of_lt {l : List ℚ} {i : Nat} (hi : i < l.length) :
    l.take (i + 1) ≠ [] := by
  intro hc
  have h1 : (l.take (i + 1)).length = 0 := by rw [hc]; rfl
  rw [List.length_take] at h1
  omega

lemma cummaxAux_get? (l : List ℚ) : ∀ (m : ℚ) (i : Nat), i < l.length →
    (cummaxAux m l).get? i = some (max m (seriesMax (l.take (i + 1)))) := by
  induction l with
  | nil => intro m i hi; simp at hi
  | cons x xs ih =>
    intro m i hi
    cases i with
    | zero => simp [cummaxAux, seriesMax]
    | succ j =>
      have hj : j < xs.length := by simpa using hi
      show (cummaxAux (max m x) xs).get? j = _
      rw [ih (max m x) j hj]
      have hne : xs.take (j + 1) ≠ [] := take_ne_nil_of_lt hj
      simp only [List.take_succ_cons]
      rw [seriesMax_cons hne x, max_assoc]

lemma cummax_get? (l : List ℚ) : ∀ (i : Nat), i < l.length →
    (cummax l).get? i = some (seriesMax (l.take (i + 1))) := by
  cases l with
  | nil => intro i hi; simp at hi
  | cons x xs =>
    intro i hi
    cases i with
    | zero => simp [cummax, seriesMax]
    | succ j =>
      have hj : j < xs.length := by simpa using hi
      show (cummaxAux x xs).get? j = _
      rw [cummaxAux_get? xs x j hj]
      have hne : xs.take (j + 1) ≠ [] := take_ne_nil_of_lt hj
      simp only [List.take_succ_cons]
      rw [seriesMax_cons hne x]

lemma zipWith_cummax_eq (l : List ℚ) :
    List.zipWith (fun a b => a - b) (cummax l) l
      = (List.range l.length).map
          (fun i => seriesMax (l.take (i + 1)) - l.getD i 0) := by
  apply List.ext
  intro n
  by_cases hn : n < l.length
  · rw [List.get?_zipWith, cummax_get? l n hn, List.get?_eq_get hn,
      List.get?_map, List.get?_range hn]
    simp [List.getD_eq_get?, List.get?_eq_get hn, List.getElem?_eq_getElem hn]
  · have h1 : (List.zipWith (fun a b : ℚ => a - b) (cummax l) l).get? n = none := by
      rw [List.get?_eq_none, List.length_zipWith, cummax_length]
      omega
    have h2 : ((List.range l.length).map
        (fun i => seriesMax (l.take (i + 1)) - l.getD i 0)).get? n = none := by
      rw [List.get?_eq_none, List.length_map, List.length_range]
      omega
    rw [h1, h2]

lemma max_drawdown_eq_spec (h : History) : h.max_drawdown = max_drawdown_spec h := by
  by_cases hc : h.records = []
  · simp [History.max_drawdown, max_drawdown_spec, hc]
  · obtain ⟨r, rs, hrr⟩ := List.exists_cons_of_ne_nil hc
    have h1 : (h.records.map Record.total_gain).isEmpty = false := by rw [hrr]; rfl
    have h2 : h.records.isEmpty = false := by rw [hrr]; rfl
    simp only [History.max_drawdown, max_drawdown_spec, h1, h2, Bool.false_eq_true,
      if_false]
    rw [zipWith_cummax_eq, List.length_map]

lemma get_mem_take {l : List ℚ} {n : Nat} (hn : n < l.length) :
    l.get ⟨n, hn⟩ ∈ l.take (n + 1) := by
  have hlt : n < (l.take (n + 1)).length := by
    rw [List.length_take]; omega
  have := List.get_take l hn (Nat.lt_succ_self n)
  rw [this]
  exact List.get_mem _ n hlt

lemma drawdown_mem_nonneg {l : List ℚ} {x : ℚ}
    (hx : x ∈ List.zipWith (fun a b => a - b) (cummax l) l) : 0 ≤ x := by
  obtain ⟨n, hn⟩ := List.mem_iff_get?.mp hx
  have hlen : n < l.length := by
    have h1 := List.get?_eq_some.mp hn
    obtain ⟨hb, _⟩ := h1
    rw [List.length_zipWith, cummax_length] at hb
    omega
  rw [List.get?_zipWith, cummax_get? l n hlen, List.get?_eq_get hlen] at hn
  have hxval : seriesMax (l.take (n + 1)) - l.get ⟨n, hlen⟩ = x := by
    simpa using hn
  rw [← hxval]
  have hmem := get_mem_take hlen
  have := le_seriesMax_of_mem hmem
  linarith

lemma drawdown_mem_eq_zero {l : List ℚ} (hmono : List.Chain' (· ≤ ·) l) {x : ℚ}
    (hx : x ∈ List.zipWith (fun a b => a - b) (cummax l) l) : x = 0 := by
  obtain ⟨n, hn⟩ := List.mem_iff_get?.mp hx
  have hlen : n < l.length := by
    have h1 := List.get?_eq_some.mp hn
    obtain ⟨hb, _⟩ := h1
    rw [List.length_zipWith, cummax_length] at hb
    omega
  rw [List.get?_zipWith, cummax_get? l n hlen, List.get?_eq_get hlen] at hn
  have hxval : seriesMax (l.take (n + 1)) - l.get ⟨n, hlen⟩ = x := by
    simpa using hn
  have hpair := List.chain'_iff_pairwise.mp hmono
  have hub : ∀ y ∈ l.take (n + 1), y ≤ l.get ⟨n, hlen⟩ := by
    intro y hy
    obtain ⟨j, hj⟩ := List.mem_iff_get?.mp hy
    have hjlt : j < n + 1 := by
      have h1 := List.get?_eq_some.mp hj
      obtain ⟨hb, _⟩ := h1
      rw [List.length_take] at hb
      omega
    rw [List.get?_take hjlt] at hj
    have hjlen : j < l.length := by omega
    rw [List.get?_eq_get hjlen] at hj
    have hyval : l.get ⟨j, hjlen⟩ = y := by simpa using hj
    rcases Nat.lt_or_ge j n with hlt | hge
    · rw [← hyval]
      exact List.pairwise_iff_get.mp hpair ⟨j, hjlen⟩ ⟨n, hlen⟩ hlt
    · have : j = n := by omega
      subst this
      rw [← hyval]
  have hle : seriesMax (l.take (n + 1)) ≤ l.get ⟨n, hlen⟩ :=
    seriesMax_le (take_ne_nil_of_lt hlen) hub
  have hge : l.get ⟨n, hlen⟩ ≤ seriesMax (l.take (n + 1)) :=
    le_seriesMax_of_mem (get_mem_take hlen)
  linarith

lemma seriesMax_nonneg_of_forall {l : List ℚ} (hne : l ≠ [])
    (hpos : ∀ x ∈ l, 0 ≤ x) : 0 ≤ seriesMax l := by
  obtain ⟨y, ys, hyy⟩ := List.exists_cons_of_ne_nil hne
  subst hyy
  exact le_trans (hpos y (List.mem_cons_self y ys)) (le_seriesMax_of_mem (List.mem_cons_self y ys))

lemma seriesMax_eq_zero_of_forall {l : List ℚ} (hne : l ≠ [])
    (hz : ∀ x ∈ l, x = 0) : seriesMax l = 0 := by
  have h1 : seriesMax l ≤ 0 := seriesMax_le hne (fun x hx => le_of_eq (hz x hx))
  have h2 : 0 ≤ seriesMax l :=
    seriesMax_nonneg_of_forall hne (fun x hx => ge_of_eq (hz x hx))
  linarith

lemma zip_dd_ne_nil {l : List ℚ} (hne : l ≠ []) :
    List.zipWith (fun a b : ℚ => a - b) (cummax l) l ≠ [] := by
  intro hc
  have := congrArg List.length hc
  rw [List.length_zipWith, cummax_length] at this
  simp at this
  exact hne this

lemma max_drawdown_nonneg (h : History) : 0 ≤ h.max_drawdown := by
  unfold History.max_drawdown
  by_cases hc : h.records.isEmpty
  · simp [hc]
  · simp only [hc, Bool.false_eq_true, if_false]
    have hne : h.records.map Record.total_gain ≠ [] := by
      intro habs
      rw [List.map_eq_nil] at habs
      rw [habs] at hc
      exact hc rfl
    exact seriesMax_nonneg_of_forall (zip_dd_ne_nil hne)
      (fun x hx => drawdown_mem_nonneg hx)

lemma max_drawdown_zero_of_mono (h : History)
    (hmono : List.Chain' (· ≤ ·) (h.records.map Record.total_gain)) :
    h.max_drawdown = 0 := by
  unfold History.max_drawdown
  by_cases hc : h.records.isEmpty
  · simp [hc]
  · simp only [hc, Bool.false_eq_true, if_false]
    have hne : h.records.map Record.total_gain ≠ [] := by
      intro habs
      rw [List.map_eq_nil] at habs
      rw [habs] at hc
      exact hc rfl
    exact seriesMax_eq_zero_of_forall (zip_dd_ne_nil hne)
      (fun x hx => drawdown_mem_eq_zero hmono hx)

lemma betTimesOutcomeSum_append (l : List Record) (r : Record) :
    betTimesOutcomeSum (l ++ [r]) = betTimesOutcomeSum l + r.bet * r.outcome := by
  unfold betTimesOutcomeSum
  rw [List.map_append, List.sum_append]
  simp

lemma gainInvariant_nil (start : ℚ) : gainInvariant start [] := by
  intro i hi
  simp at hi

lemma gainInvariant_append {start : ℚ} {l : List Record} {r : Record}
    (hl : gainInvariant start l)
    (hr : r.total_gain = start + betTimesOutcomeSum (l ++ [r])) :
    gainInvariant start (l ++ [r]) := by
  intro i hi
  rcases Nat.lt_or_ge i l.length with hlt | hge
  · rw [List.get_append i hlt, List.take_append_of_le_length (by omega)]
    exact hl i hlt
  · have hieq : i = l.length := by
      have : (l ++ [r]).length = l.length + 1 := by simp
      omega
    subst hieq
    have hget : (l ++ [r]).get ⟨l.length, hi⟩ = r := by
      rw [List.get_eq_getElem]
      exact List.getElem_concat_length l r l.length (by simp) (by simp)
    rw [hget, List.take_of_length_le (by simp)]
    exact hr

lemma add_record_records (h : History) (o b g : ℚ) :
    (h.add_record o b g).records = h.records ++ [⟨o, b, g⟩] := rfl

lemma runLoop_gainInvariant {σ γ : Type} (max_bet start : ℚ)
    (decide_bet : σ → History → ℚ × σ) (play : γ → History → ℚ × γ)
    (stop : History → Bool) :
    ∀ (n : Nat) (s : σ) (g : γ) (h : History) (gain : ℚ),
      gainInvariant start h.records →
      gain = start + betTimesOutcomeSum h.records →
      ∀ h2 g2,
        runLoop max_bet decide_bet play stop n s g h gain = Except.ok (h2, g2) →
        gainInvariant start h2.records := by
  intro n
  induction n with
  | zero =>
    intro s g h gain hinv hgain h2 g2 hrun
    simp only [runLoop, Except.ok.injEq, Prod.mk.injEq] at hrun
    rw [← hrun.1]
    exact hinv
  | succ n ih =>
    intro s g h gain hinv hgain h2 g2 hrun
    simp only [runLoop] at hrun
    by_cases hneg : (decide_bet s h).1 < 0
    · simp [hneg] at hrun
    · simp only [hneg, if_false] at hrun
      set bet := if (decide_bet s h).1 > max_bet then max_bet else (decide_bet s h).1 with hbet
      set o := (play g h).1 with ho
      have hnewgain : gain + bet * o =
          start + betTimesOutcomeSum (h.records ++ [⟨o, bet, gain + bet * o⟩]) := by
        rw [betTimesOutcomeSum_append]
        simp only []
        rw [hgain]
        ring
      have hnewinv : gainInvariant start (h.add_record o bet (gain + bet * o)).records := by
        rw [add_record_records]
        exact gainInvariant_append hinv hnewgain
      by_cases hstop : stop (h.add_record o bet (gain + bet * o))
      · simp only [hstop, if_true, Except.ok.injEq, Prod.mk.injEq] at hrun
        rw [← hrun.1]
        exact hnewinv
      · simp only [hstop, if_false] at hrun
        exact ih (decide_bet s h).2 (play g h).2 _ _ hnewinv hnewgain h2 g2 hrun

lemma runStrategies_gainInvariant {σ γ : Type} (max_bet start : ℚ)
    (play : γ → History → ℚ × γ) (stop : History → Bool) (rounds : Nat) :
    ∀ (strats : List (String × σ × (σ → History → ℚ × σ))) (g : γ)
      (results : List (String × Result)),
      runStrategies max_bet start play stop rounds strats g = Except.ok results →
      ∀ name r, (name, r) ∈ results → gainInvariant start r.history := by
  intro strats
  induction strats with
  | nil =>
    intro g results hrun name r hmem
    simp only [runStrategies, Except.ok.injEq] at hrun
    rw [← hrun] at hmem
    cases hmem
  | cons p rest ih =>
    obtain ⟨name0, s0, decide0⟩ := p
    intro g results hrun name r hmem
    rw [runStrategies] at hrun
    cases hloop : runLoop max_bet decide0 play stop rounds s0 g ⟨[]⟩ start with
    | error e => rw [hloop] at hrun; cases hrun
    | ok pr =>
      obtain ⟨hh, g2⟩ := pr
      rw [hloop] at hrun
      dsimp only at hrun
      cases hrest : runStrategies max_bet start play stop rounds rest g2 with
      | error e => rw [hrest] at hrun; cases hrun
      | ok results2 =>
        rw [hrest] at hrun
        simp only [Except.ok.injEq] at hrun
        rw [← hrun] at hmem
        rcases List.mem_cons.mp hmem with hhead | htail
        · have hr : r = Result.ofHistory hh.records := by
            have := congrArg Prod.snd hhead
            simpa using this
          have hhist : r.history = hh.records := by rw [hr]; rfl
          rw [hhist]
          exact runLoop_gainInvariant max_bet start decide0 play stop rounds s0 g
            ⟨[]⟩ start (gainInvariant_nil start) (by simp [betTimesOutcomeSum])
            hh g2 hloop
        · exact ih g2 results2 hrest name r htail

lemma betsInRange_nil (max_bet : ℚ) : betsInRange max_bet [] := by
  intro r hr
  cases hr

lemma runLoop_betsInRange {σ γ : Type} {max_bet : ℚ} (hmb : 0 ≤ max_bet)
    (decide_bet : σ → History → ℚ × σ) (play : γ → History → ℚ × γ)
    (stop : History → Bool) :
    ∀ (n : Nat) (s : σ) (g : γ) (h : History) (gain : ℚ),
      betsInRange max_bet h.records →
      ∀ h2 g2,
        runLoop max_bet decide_bet play stop n s g h gain = Except.ok (h2, g2) →
        betsInRange max_bet h2.records := by
  intro n
  induction n with
  | zero =>
    intro s g h gain hinv h2 g2 hrun
    simp only [runLoop, Except.ok.injEq, Prod.mk.injEq] at hrun
    rw [← hrun.1]
    exact hinv
  | succ n ih =>
    intro s g h gain hinv h2 g2 hrun
    simp only [runLoop] at hrun
    by_cases hneg : (decide_bet s h).1 < 0
    · simp [hneg] at hrun
    · simp only [hneg, if_false] at hrun
      set bet := if (decide_bet s h).1 > max_bet then max_bet else (decide_bet s h).1 with hbet
      set o := (play g h).1 with ho
      have hbetrange : 0 ≤ bet ∧ bet ≤ max_bet := by
        rw [hbet]
        by_cases hover : (decide_bet s h).1 > max_bet
        · simp [hover, hmb]
        · simp only [hover, if_false]
          exact ⟨not_lt.mp hneg, not_lt.mp hover⟩
      have hnewinv : betsInRange max_bet (h.add_record o bet (gain + bet * o)).records := by
        rw [add_record_records]
        intro r hr
        rcases List.mem_append.mp hr with hl | hsing
        · exact hinv r hl
        · have : r = ⟨o, bet, gain + bet * o⟩ := by simpa using hsing
          rw [this]
          exact hbetrange
      by_cases hstop : stop (h.add_record o bet (gain + bet * o))
      · simp only [hstop, if_true, Except.ok.injEq, Prod.mk.injEq] at hrun
        rw [← hrun.1]
        exact hnewinv
      · simp only [hstop, if_false] at hrun
        exact ih (decide_bet s h).2 (play g h).2 _ _ hnewinv h2 g2 hrun

lemma runStrategies_betsInRange {σ γ : Type} {max_bet : ℚ} (hmb : 0 ≤ max_bet)
    (start : ℚ) (play : γ → History → ℚ × γ) (stop : History → Bool) (rounds : Nat) :
    ∀ (strats : List (String × σ × (σ → History → ℚ × σ))) (g : γ)
      (results : List (String × Result)),
      runStrategies max_bet start play stop rounds strats g = Except.ok results →
      ∀ name r, (name, r) ∈ results → betsInRange max_bet r.history := by
  intro strats
  induction strats with
  | nil =>
    intro g results hrun name r hmem
    simp only [runStrategies, Except.ok.injEq] at hrun
    rw [← hrun] at hmem
    cases hmem
  | cons p rest ih =>
    obtain ⟨name0, s0, decide0⟩ := p
    intro g results hrun name r hmem
    rw [runStrategies] at hrun
    cases hloop : runLoop max_bet decide0 play stop rounds s0 g ⟨[]⟩ start with
    | error e => rw [hloop] at hrun; cases hrun
    | ok pr =>
      obtain ⟨hh, g2⟩ := pr
      rw [hloop] at hrun
      dsimp only at hrun
      cases hrest : runStrategies max_bet start play stop rounds rest g2 with
      | error e => rw [hrest] at hrun; cases hrun
      | ok results2 =>
        rw [hrest] at hrun
        simp only [Except.ok.injEq] at hrun
        rw [← hrun] at hmem
        rcases List.mem_cons.mp hmem with hhead | htail
        · have hr : r = Result.ofHistory hh.records := by
            have := congrArg Prod.snd hhead
            simpa using this
          have hhist : r.history = hh.records := by rw [hr]; rfl
          rw [hhist]
          exact runLoop_betsInRange hmb decide0 play stop rounds s0 g
            ⟨[]⟩ start (betsInRange_nil max_bet) hh g2 hloop
        · exact ih g2 results2 hrest name r htail

lemma runLoop_negative_abort {σ γ : Type} (max_bet : ℚ)
    (decide_bet : σ → History → ℚ × σ) (play : γ → History → ℚ × γ)
    (stop : History → Bool) (n : Nat) (s : σ) (g : γ) (h : History) (gain : ℚ)
    (hneg : (decide_bet s h).1 < 0) :
    runLoop max_bet decide_bet play stop (n + 1) s g h gain =
      Except.error SimError.valueError := by
  simp [runLoop, hneg]

lemma runStrategies_negative {σ γ : Type} (max_bet start : ℚ)
    (play : γ → History → ℚ × γ) (stop : History → Bool) (rounds : Nat)
    (hr : 1 ≤ rounds) :
    ∀ (strats : List (String × σ × (σ → History → ℚ × σ))) (g : γ)
      (name : String) (s0 : σ) (decide0 : σ → History → ℚ × σ),
      (name, s0, decide0) ∈ strats →
      (decide0 s0 ⟨[]⟩).1 < 0 →
      runStrategies max_bet start play stop rounds strats g =
        Except.error SimError.valueError := by
  intro strats
  induction strats with
  | nil =>
    intro g name s0 decide0 hmem
    cases hmem
  | cons p rest ih =>
    obtain ⟨name1, s1, decide1⟩ := p
    intro g name s0 decide0 hmem hneg
    rcases List.mem_cons.mp hmem with hhead | htail
    · cases hhead
      rw [runStrategies]
      cases rounds with
      | zero => omega
      | succ m =>
        rw [runLoop_negative_abort max_bet decide1 play stop m s1 g ⟨[]⟩ start hneg]
    · rw [runStrategies]
      cases hloop : runLoop max_bet decide1 play stop rounds s1 g ⟨[]⟩ start with
      | error e =>
        cases e
        rfl
      | ok pr =>
        obtain ⟨hh, g2⟩ := pr
        dsimp only
        rw [ih g2 name s0 decide0 htail hneg]

lemma runLoop_clip_step {σ γ : Type} (max_bet : ℚ)
    (decide_bet : σ → History → ℚ × σ) (play : γ → History → ℚ × γ)
    (stop : History → Bool) (n : Nat) (s : σ) (g : γ) (h : History) (gain : ℚ)
    (hmb : 0 ≤ max_bet) (hover : max_bet < (decide_bet s h).1) :
    runLoop max_bet decide_bet play stop (n + 1) s g h gain =
      (if stop (h.add_record (play g h).1 max_bet (gain + max_bet * (play g h).1))
       then Except.ok
         (h.add_record (play g h).1 max_bet (gain + max_bet * (play g h).1),
          (play g h).2)
       else runLoop max_bet decide_bet play stop n (decide_bet s h).2 (play g h).2
         (h.add_record (play g h).1 max_bet (gain + max_bet * (play g h).1))
         (gain + max_bet * (play g h).1)) := by
  have h1 : ¬ (decide_bet s h).1 < 0 := not_lt.mpr (le_trans hmb (le_of_lt hover))
  have h2 : (decide_bet s h).1 > max_bet := hover
  simp only [runLoop, h1, if_false, h2, if_true]

/-- Claim C1: For every run of `Simulation.run` with non-negative bets (in a
run that returns results, every bet was validated non-negative) and any
outcome sequence, the `total_gain` recorded in the `History` after round `i`
equals `start_value` plus the sum over `k ≤ i` of `bet_k * outcome_k`, where
`bet_k` and `outcome_k` are the values recorded for round `k`. -/
theorem run_total_gain_is_start_plus_sum {σ γ : Type} (sim : Simulation σ γ)
    (rounds : Nat) (stop : History → Bool) (results : List (String × Result))
    (hrun : sim.run rounds stop = Except.ok results)
    (name : String) (r : Result) (hmem : (name, r) ∈ results) :
    ∀ i (hi : i < r.history.length),
      (r.history.get ⟨i, hi⟩).total_gain =
        sim.start_value + betTimesOutcomeSum (r.history.take (i + 1)) :=
  runStrategies_gainInvariant sim.max_bet sim.start_value sim.play_round stop
    rounds sim.strategies sim.game results hrun name r hmem

/-- Witness for C1: a 3-round fixed-bet-10 run on a scripted always-win game
with `start_value = 100` reaches `total_gain` 130 = 100 + the recorded
bet-times-outcome sum after round 2 (0-based). -/
theorem run_total_gain_is_start_plus_sum_witness :
    (([⟨1, 10, 110⟩, ⟨1, 10, 120⟩, ⟨1, 10, 130⟩] : List Record).get
        ⟨2, by norm_num⟩).total_gain =
      (100 : ℚ) + betTimesOutcomeSum
        (([⟨1, 10, 110⟩, ⟨1, 10, 120⟩, ⟨1, 10, 130⟩] : List Record).take 3) := by
  exact run_total_gain_is_start_plus_sum
    ⟨[("fixed", (), FixedBettingStrategy.decide_bet 10)], ([1, 1, 1] : List ℚ),
      ScriptedGame.play_round, 1000, 100⟩ 3 (fun _ => false)
    [("fixed", Result.ofHistory [⟨1, 10, 110⟩, ⟨1, 10, 120⟩, ⟨1, 10, 130⟩])]
    (by norm_num [Simulation.run, runStrategies, runLoop, History.add_record,
      FixedBettingStrategy.decide_bet, ScriptedGame.play_round, Result.ofHistory])
    "fixed" _ (List.mem_singleton.mpr rfl) 2 (by norm_num [Result.ofHistory])

/-- Claim C2: if a strategy returns a negative bet on any round (first
conjunct: at any reachable round state, the loop raises the value error
immediately, so the failure is fatal and not retried), then `Simulation.run`
raises the value error; the run returns `Except.error`, so the returned
mapping does not exist and in particular holds no `Result` for that
strategy (second conjunct, stated for a strategy whose first decided bet is
negative). -/
theorem negative_bet_raises_value_error :
    (∀ (σ γ : Type) (max_bet : ℚ) (decide_bet : σ → History → ℚ × σ)
       (play : γ → History → ℚ × γ) (stop : History → Bool) (n : Nat)
       (s : σ) (g : γ) (h : History) (gain : ℚ),
       (decide_bet s h).1 < 0 →
       runLoop max_bet decide_bet play stop (n + 1) s g h gain =
         Except.error SimError.valueError)
    ∧ (∀ (σ γ : Type) (sim : Simulation σ γ) (rounds : Nat)
        (stop : History → Bool) (name : String) (s0 : σ)
        (decide0 : σ → History → ℚ × σ),
        (name, s0, decide0) ∈ sim.strategies →
        (decide0 s0 ⟨[]⟩).1 < 0 → 1 ≤ rounds →
        sim.run rounds stop = Except.error SimError.valueError) := by
  constructor
  · intro σ γ max_bet decide_bet play stop n s g h gain hneg
    exact runLoop_negative_abort max_bet decide_bet play stop n s g h gain hneg
  · intro σ γ sim rounds stop name s0 decide0 hmem hneg hr
    exact runStrategies_negative sim.max_bet sim.start_value sim.play_round stop
      rounds hr sim.strategies sim.game name s0 decide0 hmem hneg

/-- Witness for C2: a strategy constantly returning -5 aborts the round loop
with the value error, and a 3-round run with it yields `Except.error`. -/
theorem negative_bet_raises_value_error_witness :
    runLoop 1000 (fun (_ : Unit) (_ : History) => ((-5 : ℚ), ()))
      ScriptedGame.play_round (fun _ => false) 1 () ([] : List ℚ) ⟨[]⟩ 100 =
      Except.error SimError.valueError
    ∧ Simulation.run ⟨[("neg", (), fun _ _ => ((-5 : ℚ), ()))], ([] : List ℚ),
        ScriptedGame.play_round, 1000, 100⟩ 3 (fun _ => false) =
        Except.error SimError.valueError := by
  constructor
  · exact negative_bet_raises_value_error.1 Unit (List ℚ) 1000
      (fun _ _ => ((-5 : ℚ), ())) ScriptedGame.play_round (fun _ => false)
      0 () [] ⟨[]⟩ 100 (by norm_num)
  · exact negative_bet_raises_value_error.2 Unit (List ℚ) _ 3 (fun _ => false)
      "neg" () _ (List.mem_singleton.mpr rfl) (by norm_num) (by norm_num)

/-- Counterexample to C3 as stated: a 0-round run with `start_value = 100`
produces the `Result` of an empty record list, whose `final_gain` is 0,
not the start value 100 (models.py line 89 uses the literal `0.0`). -/
theorem result_empty_final_gain_counterexample :
    Simulation.run ⟨[("s", (), FixedBettingStrategy.decide_bet 10)],
      ([] : List ℚ), ScriptedGame.play_round, 1000, 100⟩ 0 (fun _ => false) =
      Except.ok [("s", Result.ofHistory [])]
    ∧ (Result.ofHistory []).final_gain = 0
    ∧ (Result.ofHistory []).final_gain ≠ 100 := by
  refine ⟨rfl, rfl, ?_⟩
  norm_num [Result.ofHistory]

/-- Claim C3 (amended): for every `Result` constructed from a `History` with
zero records, `final_gain` equals 0.0 — not the start value. -/
theorem result_empty_final_gain_amended (records : List Record)
    (h : records.length = 0) : (Result.ofHistory records).final_gain = 0 := by
  have hnil : records = [] := List.length_eq_zero.mp h
  subst hnil
  rfl

/-- Witness for amended C3 at the empty record list. -/
theorem result_empty_final_gain_amended_witness :
    (Result.ofHistory []).final_gain = 0 :=
  result_empty_final_gain_amended [] rfl

/-- Claim C4: for every `Result`, `compute_statistics()` returns
`total_rounds` equal to the number of records in the underlying sequence and
`final_gain` equal to the last record total_gain, or 0.0 when there are
zero records. -/
theorem compute_statistics_rounds_and_final_gain (records : List Record) :
    ((Result.ofHistory records).compute_statistics).total_rounds = records.length
    ∧ ((Result.ofHistory records).compute_statistics).final_gain =
        (match records.getLast? with
         | some r => r.total_gain
         | none => 0) :=
  ⟨rfl, rfl⟩

/-- Claim C5: for every `History`, `max_drawdown()` equals the maximum over
positions `i` of (the maximum over `j ≤ i` of `total_gain_j`) minus
`total_gain_i` (the formula `max_drawdown_spec` written from the spec), and
it returns 0.0 when the `History` is empty. -/
theorem max_drawdown_matches_spec_formula :
    (∀ h : History, h.max_drawdown = max_drawdown_spec h)
    ∧ History.max_drawdown ⟨[]⟩ = 0 :=
  ⟨max_drawdown_eq_spec, rfl⟩

/-- Claim C6: for every `History`, `max_drawdown()` is non-negative, and it
equals 0 whenever the `total_gain` sequence (`get_capital`) is non-decreasing
throughout. -/
theorem max_drawdown_nonneg_and_zero_on_monotone :
    ∀ h : History, 0 ≤ h.max_drawdown ∧
      (List.Chain' (· ≤ ·) h.get_capital → h.max_drawdown = 0) :=
  fun h => ⟨max_drawdown_nonneg h, fun hm => max_drawdown_zero_of_mono h hm⟩

/-- Witness for C6 on the non-decreasing gain sequence 101, 102, 103. -/
theorem max_drawdown_nonneg_and_zero_on_monotone_witness :
    0 ≤ History.max_drawdown ⟨[⟨1, 1, 101⟩, ⟨1, 1, 102⟩, ⟨1, 1, 103⟩]⟩ ∧
    History.max_drawdown ⟨[⟨1, 1, 101⟩, ⟨1, 1, 102⟩, ⟨1, 1, 103⟩]⟩ = 0 :=
  ⟨(max_drawdown_nonneg_and_zero_on_monotone ⟨[⟨1, 1, 101⟩, ⟨1, 1, 102⟩, ⟨1, 1, 103⟩]⟩).1,
   (max_drawdown_nonneg_and_zero_on_monotone ⟨[⟨1, 1, 101⟩, ⟨1, 1, 102⟩, ⟨1, 1, 103⟩]⟩).2
     (by norm_num [History.get_capital])⟩

/-- Claim C7: in each round of `Simulation.run`, a bet exceeding `max_bet` is
silently capped to exactly `max_bet` — no error is raised: the round reduces
to the normal record-append step — and the capped value `max_bet` is what
enters the gain update (`gain + max_bet * outcome`) for that round. -/
theorem bet_exceeding_max_is_silently_capped {σ γ : Type} (max_bet : ℚ)
    (decide_bet : σ → History → ℚ × σ) (play : γ → History → ℚ × γ)
    (stop : History → Bool) (n : Nat) (s : σ) (g : γ) (h : History) (gain : ℚ)
    (hmb : 0 ≤ max_bet) (hover : max_bet < (decide_bet s h).1) :
    runLoop max_bet decide_bet play stop (n + 1) s g h gain =
      (if stop (h.add_record (play g h).1 max_bet (gain + max_bet * (play g h).1))
       then Except.ok
         (h.add_record (play g h).1 max_bet (gain + max_bet * (play g h).1),
          (play g h).2)
       else runLoop max_bet decide_bet play stop n (decide_bet s h).2 (play g h).2
         (h.add_record (play g h).1 max_bet (gain + max_bet * (play g h).1))
         (gain + max_bet * (play g h).1)) :=
  runLoop_clip_step max_bet decide_bet play stop n s g h gain hmb hover

/-- Witness for C7: with `max_bet = 3` and a strategy returning 5, the round
records bet 3 and updates the gain by `3 * outcome`. -/
theorem bet_exceeding_max_is_silently_capped_witness :
    runLoop 3 (fun (_ : Unit) (_ : History) => ((5 : ℚ), ()))
      (fun (_ : Unit) (_ : History) => ((1 : ℚ), ())) (fun _ => false)
      1 () () ⟨[]⟩ 100 =
      (if (fun (_ : History) => false)
          (History.add_record ⟨[]⟩ 1 3 (100 + 3 * 1))
       then Except.ok (History.add_record ⟨[]⟩ 1 3 (100 + 3 * 1), ())
       else runLoop 3 (fun (_ : Unit) (_ : History) => ((5 : ℚ), ()))
         (fun (_ : Unit) (_ : History) => ((1 : ℚ), ())) (fun _ => false)
         0 () () (History.add_record ⟨[]⟩ 1 3 (100 + 3 * 1)) (100 + 3 * 1)) := by
  exact bet_exceeding_max_is_silently_capped 3
    (fun (_ : Unit) (_ : History) => ((5 : ℚ), ()))
    (fun (_ : Unit) (_ : History) => ((1 : ℚ), ())) (fun _ => false)
    0 () () ⟨[]⟩ 100 (by norm_num) (by norm_num)

/-- Claim C8: the double-on-loss strategy doubles its bet after a round whose
outcome is the loss signal (-1) and resets to `base_bet` after any non-loss
(and bets `base_bet` on an empty history); with `base_bet = 1` and outcome
sequence [-1, -1, 1, -1] supplied by a deterministic scripted game, the
successive bets it returns — which are the bets the run records — are
[1, 2, 4, 1]. -/
theorem double_on_loss_doubles_and_resets :
    (∀ (base cur : ℚ) (h : History) (r : Record),
       h.last_record = some r → r.outcome = -1 →
       (DoubleOnLossStrategy.decide_bet base cur h).1 = cur * 2)
    ∧ (∀ (base cur : ℚ) (h : History) (r : Record),
       h.last_record = some r → r.outcome ≠ -1 →
       (DoubleOnLossStrategy.decide_bet base cur h).1 = base)
    ∧ (∀ base cur : ℚ, (DoubleOnLossStrategy.decide_bet base cur ⟨[]⟩).1 = base)
    ∧ (Simulation.run ⟨[("dol", (1 : ℚ), DoubleOnLossStrategy.decide_bet 1)],
          ([-1, -1, 1, -1] : List ℚ), ScriptedGame.play_round, 1000, 100⟩ 4
          (fun _ => false) =
        Except.ok [("dol", Result.ofHistory
          [⟨-1, 1, 99⟩, ⟨-1, 2, 97⟩, ⟨1, 4, 101⟩, ⟨-1, 1, 100⟩])])
    ∧ ((Result.ofHistory
          [⟨-1, 1, 99⟩, ⟨-1, 2, 97⟩, ⟨1, 4, 101⟩, ⟨-1, 1, 100⟩]).history.map
        Record.bet = [1, 2, 4, 1]) := by
  refine ⟨?_, ?_, ?_, ?_, ?_⟩
  · intro base cur h r hlast hloss
    simp [DoubleOnLossStrategy.decide_bet, hlast, hloss]
  · intro base cur h r hlast hnoloss
    simp [DoubleOnLossStrategy.decide_bet, hlast, hnoloss]
  · intro base cur
    rfl
  · norm_num [Simulation.run, runStrategies, runLoop, History.add_record,
      History.last_record, DoubleOnLossStrategy.decide_bet,
      ScriptedGame.play_round, Result.ofHistory]
  · rfl

/-- Witness for C8: after a recorded loss the next bet is double the current
bet; after a recorded win it is `base_bet`. -/
theorem double_on_loss_doubles_and_resets_witness :
    (DoubleOnLossStrategy.decide_bet 1 3 ⟨[⟨-1, 1, 99⟩]⟩).1 = 3 * 2 ∧
    (DoubleOnLossStrategy.decide_bet 1 8 ⟨[⟨1, 4, 101⟩]⟩).1 = 1 :=
  ⟨double_on_loss_doubles_and_resets.1 1 3 ⟨[⟨-1, 1, 99⟩]⟩ ⟨-1, 1, 99⟩ rfl rfl,
   double_on_loss_doubles_and_resets.2.1 1 8 ⟨[⟨1, 4, 101⟩]⟩ ⟨1, 4, 101⟩ rfl
     (by norm_num)⟩

/-- Counterexample to C9 as stated: with `max_bet = -1` (the constructor does
not validate it) a returned bet of 0 is clipped down to -1 and recorded, and
the recorded bet -1 does not lie in the closed interval [0, max_bet]. -/
theorem recorded_bet_in_range_counterexample :
    Simulation.run ⟨[("s", (), FixedBettingStrategy.decide_bet 0)],
      ([1] : List ℚ), ScriptedGame.play_round, -1, 100⟩ 1 (fun _ => false) =
      Except.ok [("s", Result.ofHistory [⟨1, -1, 99⟩])]
    ∧ ¬ betsInRange (-1) (Result.ofHistory [⟨1, -1, 99⟩]).history := by
  constructor
  · norm_num [Simulation.run, runStrategies, runLoop, History.add_record,
      FixedBettingStrategy.decide_bet, ScriptedGame.play_round, Result.ofHistory]
  · intro hc
    have hr := hc ⟨1, -1, 99⟩ (by simp [Result.ofHistory])
    have h0 : (0 : ℚ) ≤ -1 := hr.1
    norm_num at h0

/-- Claim C9 (amended): provided `max_bet` is non-negative, every record in a
history returned by `Simulation.run` has a `bet` field lying in the closed
interval [0, max_bet]: the stored bet is the post-validation, post-clipping
value. -/
theorem recorded_bet_in_range_amended {σ γ : Type} (sim : Simulation σ γ)
    (hmb : 0 ≤ sim.max_bet) (rounds : Nat) (stop : History → Bool)
    (results : List (String × Result))
    (hrun : sim.run rounds stop = Except.ok results)
    (name : String) (r : Result) (hmem : (name, r) ∈ results) :
    betsInRange sim.max_bet r.history :=
  runStrategies_betsInRange hmb sim.start_value sim.play_round stop rounds
    sim.strategies sim.game results hrun name r hmem

/-- Witness for amended C9 on a 2-round fixed-bet-10 run with
`max_bet = 1000`. -/
theorem recorded_bet_in_range_amended_witness :
    betsInRange 1000 ([⟨1, 10, 110⟩, ⟨1, 10, 120⟩] : List Record) := by
  exact recorded_bet_in_range_amended
    ⟨[("fixed", (), FixedBettingStrategy.decide_bet 10)], ([1, 1] : List ℚ),
      ScriptedGame.play_round, 1000, 100⟩ (by norm_num) 2 (fun _ => false)
    [("fixed", Result.ofHistory [⟨1, 10, 110⟩, ⟨1, 10, 120⟩])]
    (by norm_num [Simulation.run, runStrategies, runLoop, History.add_record,
      FixedBettingStrategy.decide_bet, ScriptedGame.play_round, Result.ofHistory])
    "fixed" _ (List.mem_singleton.mpr rfl)

/-- Claim C10: `History.variance_gain()` on a `History` containing exactly
one record returns NaN (`none`; the n-1 denominator sample variance is
undefined), not 0.0; the zero-record case returns the hard-coded 0.0. -/
theorem variance_gain_single_record_is_nan :
    (∀ r : Record, History.variance_gain ⟨[r]⟩ = none)
    ∧ History.variance_gain ⟨[]⟩ = some 0
    ∧ (∀ r : Record, History.variance_gain ⟨[r]⟩ ≠ some 0) := by
  refine ⟨fun r => rfl, rfl, fun r => ?_⟩
  simp [History.variance_gain, pandasVar]
